import Mathlib

/-!
Verification development for the pharmacy stock-request dashboard
(`tools/dashboard.py`).  The Python source is shallowly embedded below:
strings are lists of characters, the pandas dataframe is a list of records,
and each cleaning / filtering / aggregation step of the source is translated
into an executable Lean definition.  Theorems about the claims of the
specification follow the definitions.
-/

/-! ## Character classes used by the regular expressions in the source

The source compiles the pattern
  backslash-s* [open bracket] backslash-s* [A-Z0-9]\x7b4,6\x7d backslash-s* [close bracket] backslash-s* $
(`_SUFFIX_RE`, dashboard.py line 33) and also calls Python `str.strip` and
`re.sub("  +", " ", ...)`.  We model the character classes over the
relevant (ASCII) alphabet.
-/

/-- Python regex whitespace class (ASCII part): space, tab, newline,
carriage return, vertical tab, form feed. -/
def isWs (c : Char) : Bool :=
  c = ' ' || c = '\t' || c = '\n' || c = '\r' || c = '\x0b' || c = '\x0c'

/-- The class `[A-Z0-9]` of the suffix pattern. -/
def isCode (c : Char) : Bool :=
  ('A' ≤ c && c ≤ 'Z') || ('0' ≤ c && c ≤ '9')

/-- The opening-bracket alternatives of `_SUFFIX_RE`. -/
def isOpenBr (c : Char) : Bool :=
  c = '\x7b' || c = '(' || c = '['

/-- The closing-bracket alternatives of `_SUFFIX_RE`.  Note the source
pattern accepts ANY of the three closing brackets, independent of which
opening bracket matched. -/
def isCloseBr (c : Char) : Bool :=
  c = '\x7d' || c = ')' || c = ']'

/-! ## The suffix pattern `_SUFFIX_RE`

`matchSuffix t` decides whether the whole string `t` matches
`_SUFFIX_RE` (the pattern is anchored at the end by `$`; a match of the
pattern starting at position `i` of `s` is a match of `matchSuffix` on
`s.drop i`).  Because the code class `[A-Z0-9]` is disjoint from both the
whitespace class and the bracket classes, the regex match is equivalent to
this deterministic scan. -/

/-- Whole-string match of `_SUFFIX_RE` (dashboard.py line 33). -/
def matchSuffix (t : List Char) : Bool :=
  match t.dropWhile isWs with
  | [] => false
  | b :: rest =>
    isOpenBr b &&
    (let r1 := rest.dropWhile isWs
     let code := r1.takeWhile isCode
     decide (4 ≤ code.length) && decide (code.length ≤ 6) &&
     (match (r1.dropWhile isCode).dropWhile isWs with
      | [] => false
      | c :: r3 => isCloseBr c && (r3.dropWhile isWs).isEmpty))

/-- Index of the leftmost position of `s` at which `_SUFFIX_RE` matches
(to the end of the string), if any.  `re.sub` replaces the leftmost
match. -/
def firstMatchIdx (s : List Char) : Option Nat :=
  (List.range (s.length + 1)).find? (fun i => matchSuffix (s.drop i))

/-- `_SUFFIX_RE.sub("", s)`: remove the leftmost match of the
end-anchored suffix pattern, if any. -/
def stripSuffix (s : List Char) : List Char :=
  match firstMatchIdx s with
  | some i => s.take i
  | none => s

/-! ## Python `str.strip` and the double-space collapse -/

/-- Python `str.strip()`: drop leading and trailing whitespace. -/
def pyStrip (s : List Char) : List Char :=
  ((s.dropWhile isWs).reverse.dropWhile isWs).reverse

/-- `re.sub("  +", " ", s)`: collapse every maximal run of two or more
spaces to a single space (a run of length one is left alone, so this
equals collapsing every run of spaces to one space). -/
def collapseSpaces : List Char → List Char
  | [] => []
  | [c] => [c]
  | c1 :: c2 :: rest =>
    if c1 = ' ' && c2 = ' ' then collapseSpaces (c2 :: rest)
    else c1 :: collapseSpaces (c2 :: rest)

/-- `_clean_item_name` (dashboard.py lines 42-44): strip the trailing
catalogue-code suffix, then Python-strip, then collapse runs of spaces. -/
def cleanItemName (s : List Char) : List Char :=
  collapseSpaces (pyStrip (stripSuffix s))

/-! ## Data model

A raw row of the spreadsheet (`pd.read_excel`): fields that can be blank
in the sheet come in as `Option` (pandas `NaN`).  The date column is
modelled as an abstract day ordinal: its parsing (`pd.to_datetime`,
line 68) aborts the whole load on failure and no claim concerns the
parse itself.  The numeric `Value` field is modelled as the result of
`pd.to_numeric(..., errors="coerce")` before `fillna`: `some q` when the
cell coerces to the number `q`, `none` when coercion fails. -/

structure RawRecord where
  inventoryItem : String
  destination : Option String
  schedule : Option String
  requestNumber : Nat
  submittingUser : Option String
  quantity : Option Int
  value : Option Int
  date : Nat
deriving DecidableEq, Repr

/-- A row of the cleaned dataframe produced by `load_data`. -/
structure Record where
  itemClean : List Char
  destination : List Char
  drugSchedule : String
  requestNumber : Nat
  submittingUser : String
  quantity : Option Int
  value : Int
  date : Nat
deriving DecidableEq, Repr

/-- `_CD_MAP` (dashboard.py lines 35-39): the exact-string canonical map
for the controlled-drug-schedule label. -/
def CD_MAP : List (String × String) :=
  [("Non-controlled Drugs", "Non-controlled"),
   ("Controlled Drugs", "Controlled"),
   ("Controlled drugs", "Controlled")]

/-- Step 4 of `load_data` (lines 61-65):
`df["Controlled Drug Schedule"].map(_CD_MAP).fillna("Unknown")`.
A missing label stays `NaN` under `.map` and an unmapped label becomes
`NaN`; `fillna` turns both into `"Unknown"`. -/
def mapSchedule (raw : Option String) : String :=
  match raw with
  | none => "Unknown"
  | some s =>
    match CD_MAP.lookup s with
    | some c => c
    | none => "Unknown"

/-- Step 2 of `load_data` (lines 54-55):
`df["Destination Location"].astype(str).str.strip()`.  `astype(str)`
renders a missing cell (float `NaN`) as the literal string `"nan"`
before stripping. -/
def normDest (raw : Option String) : List Char :=
  match raw with
  | none => pyStrip "nan".data
  | some s => pyStrip s.data

/-- Step 6 of `load_data` (line 71):
`df["Submitting User"].fillna("UNATTRIBUTED")`. -/
def normUser (raw : Option String) : String :=
  match raw with
  | none => "UNATTRIBUTED"
  | some u => u

/-- Step 7 of `load_data` (line 74):
`pd.to_numeric(df["Value"], errors="coerce").fillna(0)` — a coercion
failure (`none`) becomes `0`, a numeric value is kept. -/
def coerceValue (raw : Option Int) : Int :=
  match raw with
  | none => 0
  | some q => q

/-- Per-row normalization performed by `load_data` (lines 48-80).
`Quantity` is not touched by the source, so it passes through
unchanged, `NaN`s included. -/
def normalizeRow (r : RawRecord) : Record :=
  { itemClean := cleanItemName r.inventoryItem.data
    destination := normDest r.destination
    drugSchedule := mapSchedule r.schedule
    requestNumber := r.requestNumber
    submittingUser := normUser r.submittingUser
    quantity := r.quantity
    value := coerceValue r.value
    date := r.date }

/-- `load_data` (lines 47-80) applied to the rows of the sheet: cleans
every row in order; no row is dropped. -/
def load_data (rows : List RawRecord) : List Record :=
  rows.map normalizeRow

/-! ## Filter engine

The sidebar produces a time mask (one of the Daily / Weekly / Monthly
boolean masks over the date column — all three are pointwise boolean
predicates of the row's date), a list of selected destinations
(`multiselect`, default empty) and a list of selected schedules.
Lines 180-186 apply them in order; a Python `if selected:` guard skips a
dimension when its list is empty. -/

structure FilterSpec where
  timeMask : Nat → Bool
  destinations : List (List Char)
  schedules : List String

/-- `filtered_df` (dashboard.py lines 180-186). -/
def filtered_df (df : List Record) (spec : FilterSpec) : List Record :=
  let t := df.filter (fun r => spec.timeMask r.date)
  let d := if spec.destinations.isEmpty then t
           else t.filter (fun r => spec.destinations.contains r.destination)
  if spec.schedules.isEmpty then d
  else d.filter (fun r => spec.schedules.contains r.drugSchedule)

/-- The record-level pass condition stated by the specification: time
window AND (destinations empty OR member) AND (schedules empty OR
member). -/
def passes (spec : FilterSpec) (r : Record) : Bool :=
  spec.timeMask r.date &&
  (spec.destinations.isEmpty || spec.destinations.contains r.destination) &&
  (spec.schedules.isEmpty || spec.schedules.contains r.drugSchedule)

/-- The time + schedule filter with no destination restriction
(the destination branch of lines 182-183 skipped). -/
def timeScheduleFilter (df : List Record) (tm : Nat → Bool)
    (schedules : List String) : List Record :=
  let t := df.filter (fun r => tm r.date)
  if schedules.isEmpty then t
  else t.filter (fun r => schedules.contains r.drugSchedule)

/-! ## Aggregation queries -/

/-- pandas `Series.nunique`: number of distinct values. -/
def nunique (l : List Nat) : Nat :=
  l.dedup.length

/-- One output row of the Top Submitting Users table (`user_df`). -/
structure UserRow where
  user : String
  requests : Nat
  lineItems : Nat
  totalValue : Int
deriving DecidableEq, Repr

/-- The rows a given submitting user contributes to the filtered subset. -/
def rowsOfUser (df : List Record) (u : String) : List Record :=
  df.filter (fun r => r.submittingUser == u)

/-- The unsorted per-user groups of `filtered_df.groupby("Submitting User")`
(dashboard.py lines 400-407).  One group per distinct submitting user;
`Requests` is `("Request Number", "nunique")`, `Line_Items` is
`("Quantity", "count")` — pandas `count` counts the NON-NULL quantity
cells of the group — and `Total_Value` is `("Value", "sum")`. -/
def userGroups (df : List Record) : List UserRow :=
  ((df.map (fun r => r.submittingUser)).dedup).map (fun u =>
    let rows := rowsOfUser df u
    { user := u
      requests := nunique (rows.map (fun r => r.requestNumber))
      lineItems := (rows.filter (fun r => r.quantity.isSome)).length
      totalValue := (rows.map (fun r => r.value)).sum })

/-- Descending order on the distinct-request count, the key of
`.sort_values("Requests", ascending=False)` (line 408). -/
def userGe (a b : UserRow) : Prop := b.requests ≤ a.requests

instance : DecidableRel userGe := fun a b => Nat.decLe b.requests a.requests

instance : IsTotal UserRow userGe :=
  ⟨fun a b => (Nat.le_total a.requests b.requests).symm⟩

instance : IsTrans UserRow userGe :=
  ⟨fun _ _ _ h1 h2 => Nat.le_trans h2 h1⟩

/-- `user_df` (dashboard.py lines 400-409): per-user aggregates sorted
descending by the distinct-request count. -/
def user_df (df : List Record) : List UserRow :=
  List.insertionSort userGe (userGroups df)

/-- One output row of the Daily Trend table. -/
structure DayRow where
  date : Nat
  requests : Nat
  value : Int
deriving DecidableEq, Repr

/-- `daily_trend` (dashboard.py lines 456-461): group the FULL dataframe
`df` by calendar day (groupby sorts its keys ascending) and report the
distinct-request count and value sum of each day. -/
def daily_trend (df : List Record) : List DayRow :=
  (List.insertionSort (fun a b => a ≤ b) ((df.map (fun r => r.date)).dedup)).map
    (fun d =>
      let rows := df.filter (fun r => r.date == d)
      { date := d
        requests := nunique (rows.map (fun r => r.requestNumber))
        value := (rows.map (fun r => r.value)).sum })

/-- The daily-trend data as a function of the dashboard state: the code
at line 457 groups `df` — the full table — so the active filter spec is
ignored by construction. -/
def dailyTrendView (df : List Record) (_uiSpec : FilterSpec) : List DayRow :=
  daily_trend df

/-- The Time Frame radio control (line 103). -/
inductive TimeMode
  | daily
  | weekly
  | monthly
deriving DecidableEq, Repr

/-- Section 5 of the dashboard (lines 453-461): the daily-trend block
runs only under `if time_mode != "Monthly"`. -/
def renderDailyTrend (mode : TimeMode) (df : List Record) : Option (List DayRow) :=
  if mode = TimeMode.monthly then none else some (daily_trend df)

/-! ## Top-level outcome of one dashboard run -/

/-- The aggregate tables computed for a non-empty filtered subset
(restricted here to the queries the claims mention). -/
structure Aggregates where
  users : List UserRow
  trend : Option (List DayRow)
deriving DecidableEq, Repr

def computeAggregates (df filt : List Record) (mode : TimeMode) : Aggregates :=
  { users := user_df filt, trend := renderDailyTrend mode df }

/-- The load phase: `SourceNotFound` is the missing-file guard at
lines 86-91, `MalformedSource` the fatal load error (missing column or
unparseable date), `ok` a successful `load_data`. -/
inductive LoadResult
  | sourceNotFound
  | malformedSource
  | ok (df : List Record)

/-- What one run of the script surfaces to the presentation layer. -/
inductive Outcome
  | sourceNotFound
  | malformedSource
  | noData
  | render (aggs : Aggregates)
deriving DecidableEq

/-- The control flow of the script around the filter result: the guard
`if filtered_df.empty: st.warning(...); st.stop()` (lines 189-191) stops
before any aggregation query runs. -/
def runDashboard (load : LoadResult) (spec : FilterSpec) (mode : TimeMode) : Outcome :=
  match load with
  | .sourceNotFound => .sourceNotFound
  | .malformedSource => .malformedSource
  | .ok df =>
    let filt := filtered_df df spec
    if filt.isEmpty then .noData
    else .render (computeAggregates df filt mode)

/-! ## Character-class facts -/

theorem ws_not_code (c : Char) (h : isWs c = true) : isCode c = false := by
  simp only [isWs, Bool.or_eq_true, decide_eq_true_eq] at h
  rcases h with ((((h | h) | h) | h) | h) | h <;> subst h <;> decide

theorem code_not_ws (c : Char) (h : isCode c = true) : isWs c = false := by
  cases hw : isWs c with
  | false => rfl
  | true => rw [ws_not_code c hw] at h; exact Bool.noConfusion h

theorem open_not_ws (c : Char) (h : isOpenBr c = true) : isWs c = false := by
  simp only [isOpenBr, Bool.or_eq_true, decide_eq_true_eq] at h
  rcases h with (h | h) | h <;> subst h <;> decide

theorem close_not_ws (c : Char) (h : isCloseBr c = true) : isWs c = false := by
  simp only [isCloseBr, Bool.or_eq_true, decide_eq_true_eq] at h
  rcases h with (h | h) | h <;> subst h <;> decide

theorem close_not_code (c : Char) (h : isCloseBr c = true) : isCode c = false := by
  simp only [isCloseBr, Bool.or_eq_true, decide_eq_true_eq] at h
  rcases h with (h | h) | h <;> subst h <;> decide

/-! ## takeWhile / dropWhile helpers -/

theorem head?_dropWhile_false {α : Type} (p : α → Bool) (l : List α) (c : α)
    (h : (l.dropWhile p).head? = some c) : p c = false := by
  have hm := List.head?_dropWhile_not p l
  rw [h] at hm
  exact hm

theorem dropWhile_eq_self_of_head {α : Type} (p : α → Bool) (l : List α)
    (h : ∀ c, l.head? = some c → p c = false) : l.dropWhile p = l := by
  cases l with
  | nil => rfl
  | cons a t =>
    have ha := h a rfl
    rw [List.dropWhile_cons_of_neg (by simp [ha])]

theorem dropWhile_append_all {α : Type} (p : α → Bool) (w x : List α)
    (h : ∀ c ∈ w, p c = true) : (w ++ x).dropWhile p = x.dropWhile p := by
  induction w with
  | nil => rfl
  | cons a t ih =>
    rw [List.cons_append, List.dropWhile_cons_of_pos (h a (List.mem_cons_self a t))]
    exact ih fun c hc => h c (List.mem_cons_of_mem a hc)

theorem dropWhile_append_stop {α : Type} (p : α → Bool) (w x : List α)
    (hw : ∀ c ∈ w, p c = true) (hx : ∀ c, x.head? = some c → p c = false) :
    (w ++ x).dropWhile p = x := by
  rw [dropWhile_append_all p w x hw]
  exact dropWhile_eq_self_of_head p x hx

theorem takeWhile_append_stop {α : Type} (p : α → Bool) (w x : List α)
    (hw : ∀ c ∈ w, p c = true) (hx : ∀ c, x.head? = some c → p c = false) :
    (w ++ x).takeWhile p = w := by
  induction w with
  | nil =>
    cases x with
    | nil => rfl
    | cons a t => rw [List.nil_append, List.takeWhile_cons_of_neg (by simp [hx a rfl])]
  | cons a t ih =>
    rw [List.cons_append, List.takeWhile_cons_of_pos (hw a (List.mem_cons_self a t))]
    rw [ih fun c hc => hw c (List.mem_cons_of_mem a hc)]

/-! ## The suffix pattern as a declarative shape

`SuffixShape t` states, in the spec's vocabulary, that the entire string
`t` is: optional whitespace, one opening bracket, optional whitespace,
4-6 uppercase alphanumerics, optional whitespace, one closing bracket
(any of the three: the source pattern does not pair it with the opening
bracket), optional whitespace. -/

def SuffixShape (t : List Char) : Prop :=
  ∃ w1 b1 w2 code w3 b2 w4,
    t = w1 ++ b1 :: (w2 ++ code ++ w3 ++ b2 :: w4) ∧
    (∀ c ∈ w1, isWs c = true) ∧ isOpenBr b1 = true ∧
    (∀ c ∈ w2, isWs c = true) ∧
    (∀ c ∈ code, isCode c = true) ∧ 4 ≤ code.length ∧ code.length ≤ 6 ∧
    (∀ c ∈ w3, isWs c = true) ∧ isCloseBr b2 = true ∧
    (∀ c ∈ w4, isWs c = true)

theorem matchSuffix_eq_true_iff (t : List Char) :
    matchSuffix t = true ↔ SuffixShape t := by
  constructor
  · intro h
    unfold matchSuffix at h
    split at h
    · exact Bool.noConfusion h
    · rename_i b rest heq
      simp only [Bool.and_eq_true, decide_eq_true_eq] at h
      obtain ⟨hopen, ⟨h4, h6⟩, hrest⟩ := h
      split at hrest
      · exact Bool.noConfusion hrest
      · rename_i c r3 heq2
        simp only [Bool.and_eq_true] at hrest
        obtain ⟨hclose, hempty⟩ := hrest
        have e1 : t.takeWhile isWs ++ (b :: rest) = t := by
          rw [← heq, List.takeWhile_append_dropWhile]
        have e2 : rest.takeWhile isWs ++ rest.dropWhile isWs = rest :=
          List.takeWhile_append_dropWhile _ _
        have e3 : (rest.dropWhile isWs).takeWhile isCode ++
            (rest.dropWhile isWs).dropWhile isCode = rest.dropWhile isWs :=
          List.takeWhile_append_dropWhile _ _
        have e4 : ((rest.dropWhile isWs).dropWhile isCode).takeWhile isWs ++ (c :: r3)
            = (rest.dropWhile isWs).dropWhile isCode := by
          rw [← heq2, List.takeWhile_append_dropWhile]
        refine ⟨t.takeWhile isWs, b,
          rest.takeWhile isWs,
          (rest.dropWhile isWs).takeWhile isCode,
          ((rest.dropWhile isWs).dropWhile isCode).takeWhile isWs,
          c, r3, ?_, ?_, hopen, ?_, ?_, h4, h6, ?_, hclose, ?_⟩
        · rw [List.append_assoc, List.append_assoc, e4, e3, e2, e1]
        · exact fun x hx => List.mem_takeWhile_imp hx
        · exact fun x hx => List.mem_takeWhile_imp hx
        · exact fun x hx => List.mem_takeWhile_imp hx
        · exact fun x hx => List.mem_takeWhile_imp hx
        · intro x hx
          have hnil : r3.dropWhile isWs = [] := List.isEmpty_iff.1 hempty
          exact List.dropWhile_eq_nil_iff.1 hnil x hx
  · rintro ⟨w1, b1, w2, code, w3, b2, w4, rfl, hw1, hb1, hw2, hcode, hlen4, hlen6,
      hw3, hb2, hw4⟩
    obtain ⟨c0, cs, rfl⟩ : ∃ c0 cs, code = c0 :: cs := by
      cases code with
      | nil => exact absurd hlen4 (by decide)
      | cons c0 cs => exact ⟨c0, cs, rfl⟩
    have hc0 : isCode c0 = true := hcode c0 (List.mem_cons_self c0 cs)
    have hdrop1 : (w1 ++ b1 :: (w2 ++ (c0 :: cs) ++ w3 ++ b2 :: w4)).dropWhile isWs
        = b1 :: (w2 ++ (c0 :: cs) ++ w3 ++ b2 :: w4) := by
      refine dropWhile_append_stop isWs w1 _ hw1 ?_
      intro x hx
      rw [List.head?_cons] at hx
      obtain rfl := Option.some.inj hx
      exact open_not_ws b1 hb1
    have hdrop2 : (w2 ++ (c0 :: cs) ++ w3 ++ b2 :: w4).dropWhile isWs
        = (c0 :: cs) ++ (w3 ++ b2 :: w4) := by
      rw [List.append_assoc, List.append_assoc]
      refine dropWhile_append_stop isWs w2 _ hw2 ?_
      intro x hx
      rw [List.cons_append, List.head?_cons] at hx
      obtain rfl := Option.some.inj hx
      exact code_not_ws c0 hc0
    have hheadrest : ∀ x, (w3 ++ b2 :: w4).head? = some x → isCode x = false := by
      intro x hx
      cases w3 with
      | nil =>
        rw [List.nil_append, List.head?_cons] at hx
        obtain rfl := Option.some.inj hx
        exact close_not_code b2 hb2
      | cons a s =>
        rw [List.cons_append, List.head?_cons] at hx
        obtain rfl := Option.some.inj hx
        exact ws_not_code a (hw3 a (List.mem_cons_self a s))
    have htake : ((c0 :: cs) ++ (w3 ++ b2 :: w4)).takeWhile isCode = c0 :: cs :=
      takeWhile_append_stop isCode _ _ hcode hheadrest
    have hdrop3 : ((c0 :: cs) ++ (w3 ++ b2 :: w4)).dropWhile isCode = w3 ++ b2 :: w4 :=
      dropWhile_append_stop isCode _ _ hcode hheadrest
    have hdrop4 : (w3 ++ b2 :: w4).dropWhile isWs = b2 :: w4 := by
      refine dropWhile_append_stop isWs w3 _ hw3 ?_
      intro x hx
      rw [List.head?_cons] at hx
      obtain rfl := Option.some.inj hx
      exact close_not_ws b2 hb2
    have hnil4 : w4.dropWhile isWs = [] := List.dropWhile_eq_nil_iff.2 hw4
    simp only [matchSuffix, hdrop1, hdrop2, htake, hdrop3, hdrop4, hnil4,
      Bool.and_eq_true, decide_eq_true_eq]
    exact ⟨hb1, ⟨hlen4, hlen6⟩, hb2, rfl⟩

/-! ## Characterizing `stripSuffix` -/

theorem matchSuffix_nil : matchSuffix [] = false := rfl

theorem stripSuffix_of_none (s : List Char) (h : firstMatchIdx s = none) :
    stripSuffix s = s := by
  simp [stripSuffix, h]

theorem no_split_matches (s : List Char) (h : firstMatchIdx s = none) :
    ∀ p t : List Char, s = p ++ t → matchSuffix t = false := by
  intro p t hpt
  have hmem : p.length ∈ List.range (s.length + 1) := by
    rw [List.mem_range, hpt, List.length_append]
    exact Nat.lt_succ_of_le (Nat.le_add_right _ _)
  have hnot := List.find?_eq_none.1 h p.length hmem
  have hdrop : s.drop p.length = t := by rw [hpt, List.drop_left]
  rw [hdrop] at hnot
  exact Bool.not_eq_true _ ▸ hnot

theorem match_at_found (s : List Char) (i : Nat) (h : firstMatchIdx s = some i) :
    matchSuffix (s.drop i) = true ∧ i < s.length ∧ stripSuffix s = s.take i := by
  have hstrip : stripSuffix s = s.take i := by simp [stripSuffix, h]
  unfold firstMatchIdx at h
  have hm : matchSuffix (s.drop i) = true :=
    List.find?_some (p := fun j => matchSuffix (s.drop j)) h
  have hmem : i ∈ List.range (s.length + 1) := List.mem_of_find?_eq_some h
  have hle : i ≤ s.length := Nat.lt_succ_iff.1 (List.mem_range.1 hmem)
  have hlt : i < s.length := by
    rcases Nat.lt_or_ge i s.length with hl | hg
    · exact hl
    · have : s.drop i = [] := List.drop_eq_nil_of_le hg
      rw [this, matchSuffix_nil] at hm
      exact Bool.noConfusion hm
  exact ⟨hm, hlt, hstrip⟩

theorem stripSuffix_strips (s : List Char) :
    (stripSuffix s = s ∧ ∀ p t : List Char, s = p ++ t → ¬ SuffixShape t) ∨
    (stripSuffix s ≠ s ∧ ∃ t, SuffixShape t ∧ s = stripSuffix s ++ t) := by
  cases h : firstMatchIdx s with
  | none =>
    left
    refine ⟨stripSuffix_of_none s h, ?_⟩
    intro p t hpt hshape
    have hf := no_split_matches s h p t hpt
    rw [(matchSuffix_eq_true_iff t).2 hshape] at hf
    exact Bool.noConfusion hf
  | some i =>
    right
    obtain ⟨hm, hlt, hstrip⟩ := match_at_found s i h
    constructor
    · rw [hstrip]
      intro he
      have hlen := congrArg List.length he
      rw [List.length_take] at hlen
      omega
    · exact ⟨s.drop i, (matchSuffix_eq_true_iff _).1 hm,
        by rw [hstrip, List.take_append_drop]⟩

/-! ## Fixed points of `pyStrip` and `collapseSpaces` -/

theorem pyStrip_decompose (l : List Char) :
    l.dropWhile isWs = pyStrip l ++ ((l.dropWhile isWs).reverse.takeWhile isWs).reverse := by
  conv_lhs => rw [← List.reverse_reverse (l.dropWhile isWs)]
  conv_lhs =>
    rw [← List.takeWhile_append_dropWhile (p := isWs) (l := (l.dropWhile isWs).reverse)]
  rw [List.reverse_append]
  rfl

theorem pyStrip_head_not_ws (l : List Char) (c : Char)
    (h : (pyStrip l).head? = some c) : isWs c = false := by
  obtain ⟨t, ht⟩ : ∃ t, pyStrip l = c :: t := by
    cases hp : pyStrip l with
    | nil => rw [hp] at h; exact Option.noConfusion h
    | cons a t =>
      rw [hp, List.head?_cons] at h
      exact ⟨t, by rw [Option.some.inj h]⟩
  have hdec := pyStrip_decompose l
  rw [ht, List.cons_append] at hdec
  exact head?_dropWhile_false isWs l c (by rw [hdec, List.head?_cons])

theorem pyStrip_getLast_not_ws (l : List Char) (c : Char)
    (h : (pyStrip l).getLast? = some c) : isWs c = false := by
  have hrev : (pyStrip l).reverse = (l.dropWhile isWs).reverse.dropWhile isWs := by
    unfold pyStrip
    rw [List.reverse_reverse]
  rw [← List.head?_reverse, hrev] at h
  exact head?_dropWhile_false isWs _ c h

theorem pyStrip_eq_self (l : List Char)
    (h1 : ∀ c, l.head? = some c → isWs c = false)
    (h2 : ∀ c, l.getLast? = some c → isWs c = false) : pyStrip l = l := by
  unfold pyStrip
  rw [dropWhile_eq_self_of_head isWs l h1]
  rw [dropWhile_eq_self_of_head isWs l.reverse
    (fun c hc => h2 c (by rw [← List.head?_reverse]; exact hc))]
  exact List.reverse_reverse l

theorem collapseSpaces_cons (l : List Char) :
    ∀ c, ∃ t, collapseSpaces (c :: l) = c :: t := by
  induction l with
  | nil => exact fun c => ⟨[], rfl⟩
  | cons c2 rest ih =>
    intro c
    rw [collapseSpaces]
    by_cases h : c = ' ' && c2 = ' '
    · rw [if_pos h]
      obtain ⟨t, ht⟩ := ih c2
      refine ⟨t, ?_⟩
      rw [ht]
      simp only [Bool.and_eq_true, decide_eq_true_eq] at h
      rw [h.1, h.2]
    · exact ⟨collapseSpaces (c2 :: rest), by rw [if_neg h]⟩

theorem collapseSpaces_getLast? (l : List Char) :
    ∀ c, (collapseSpaces (c :: l)).getLast? = (c :: l).getLast? := by
  induction l with
  | nil => exact fun c => rfl
  | cons c2 rest ih =>
    intro c
    rw [collapseSpaces]
    by_cases h : c = ' ' && c2 = ' '
    · rw [if_pos h, ih c2, List.getLast?_cons_cons]
    · obtain ⟨t, ht⟩ := collapseSpaces_cons rest c2
      rw [if_neg h, ht, List.getLast?_cons_cons, ← ht, ih c2, List.getLast?_cons_cons]

/-- No two adjacent spaces. -/
def noDouble : List Char → Bool
  | [] => true
  | [_] => true
  | c1 :: c2 :: rest => !(c1 = ' ' && c2 = ' ') && noDouble (c2 :: rest)

theorem noDouble_collapseSpaces (l : List Char) :
    ∀ c, noDouble (collapseSpaces (c :: l)) = true := by
  induction l with
  | nil => exact fun c => rfl
  | cons c2 rest ih =>
    intro c
    rw [collapseSpaces]
    by_cases h : c = ' ' && c2 = ' '
    · rw [if_pos h]; exact ih c2
    · rw [if_neg h]
      obtain ⟨t, ht⟩ := collapseSpaces_cons rest c2
      rw [ht, noDouble]
      have hnd := ih c2
      rw [ht] at hnd
      rw [hnd]
      simp [h]

theorem collapseSpaces_of_noDouble (l : List Char) (h : noDouble l = true) :
    collapseSpaces l = l := by
  induction l with
  | nil => rfl
  | cons c rest ih =>
    cases rest with
    | nil => rfl
    | cons c2 rest2 =>
      rw [noDouble, Bool.and_eq_true] at h
      rw [collapseSpaces, if_neg (by simp [h.1]; intro hc; simp [hc] at h; simp [h.1])]
      rw [ih h.2]

/-! ## Filter-engine lemmas -/

theorem filtered_df_eq_filter (df : List Record) (spec : FilterSpec) :
    filtered_df df spec = df.filter (passes spec) := by
  unfold filtered_df
  cases hd : spec.destinations.isEmpty <;> cases hs : spec.schedules.isEmpty
  case true.true =>
    show df.filter (fun r => spec.timeMask r.date) = List.filter (passes spec) df
    refine List.filter_congr fun r _ => ?_
    unfold passes
    rw [hd, hs]
    cases spec.timeMask r.date <;> rfl
  case true.false =>
    show (df.filter (fun r => spec.timeMask r.date)).filter
        (fun r => spec.schedules.contains r.drugSchedule) = List.filter (passes spec) df
    rw [List.filter_filter]
    refine List.filter_congr fun r _ => ?_
    unfold passes
    rw [hd, hs]
    cases spec.timeMask r.date <;>
      cases spec.schedules.contains r.drugSchedule <;> rfl
  case false.true =>
    show (df.filter (fun r => spec.timeMask r.date)).filter
        (fun r => spec.destinations.contains r.destination) = List.filter (passes spec) df
    rw [List.filter_filter]
    refine List.filter_congr fun r _ => ?_
    unfold passes
    rw [hd, hs]
    cases spec.timeMask r.date <;>
      cases spec.destinations.contains r.destination <;> rfl
  case false.false =>
    show ((df.filter (fun r => spec.timeMask r.date)).filter
        (fun r => spec.destinations.contains r.destination)).filter
        (fun r => spec.schedules.contains r.drugSchedule) = List.filter (passes spec) df
    rw [List.filter_filter, List.filter_filter]
    refine List.filter_congr fun r _ => ?_
    unfold passes
    rw [hd, hs]
    cases spec.timeMask r.date <;>
      cases spec.destinations.contains r.destination <;>
      cases spec.schedules.contains r.drugSchedule <;> rfl

theorem mem_filtered_df (df : List Record) (spec : FilterSpec) (r : Record) :
    r ∈ filtered_df df spec ↔ r ∈ df ∧ passes spec r = true := by
  rw [filtered_df_eq_filter]
  exact List.mem_filter

theorem filtered_df_no_dest (df : List Record) (spec : FilterSpec)
    (h : spec.destinations = []) :
    filtered_df df spec = timeScheduleFilter df spec.timeMask spec.schedules := by
  unfold filtered_df timeScheduleFilter
  rw [h]
  rfl

/-! ## User-aggregation lemmas -/

theorem user_df_perm_groups (df : List Record) :
    List.Perm (user_df df) (userGroups df) :=
  List.perm_insertionSort userGe (userGroups df)

theorem mem_userGroups (df : List Record) (e : UserRow) (he : e ∈ userGroups df) :
    e.user ∈ (df.map (fun r => r.submittingUser)).dedup ∧
    e.requests = nunique ((rowsOfUser df e.user).map (fun r => r.requestNumber)) ∧
    e.lineItems = ((rowsOfUser df e.user).filter (fun r => r.quantity.isSome)).length ∧
    e.totalValue = ((rowsOfUser df e.user).map (fun r => r.value)).sum := by
  obtain ⟨u, hu, rfl⟩ := List.mem_map.1 he
  exact ⟨hu, rfl, rfl, rfl⟩

theorem lookup_CD_MAP (s c : String) (h : CD_MAP.lookup s = some c) :
    c = "Non-controlled" ∨ c = "Controlled" := by
  simp only [CD_MAP, List.lookup] at h
  split at h
  · exact Or.inl (Option.some.inj h).symm
  · split at h
    · exact Or.inr (Option.some.inj h).symm
    · split at h
      · exact Or.inr (Option.some.inj h).symm
      · exact Option.noConfusion h

/-! ## Claim theorems -/

/-- C1: a record appears in `filtered_df` iff it satisfies the time window
and, for each of the destination and schedule dimensions, the selection is
empty or the record's field is a member; the result is the matching
subsequence of the table in original relative order; and with an empty
destination selection the result equals the time+schedule filter alone. -/
theorem c1_filter_conjunction : ∀ (df : List Record) (spec : FilterSpec),
    filtered_df df spec = df.filter (passes spec) ∧
    (∀ r : Record, r ∈ filtered_df df spec ↔ r ∈ df ∧ passes spec r = true) ∧
    List.Sublist (filtered_df df spec) df ∧
    (spec.destinations = [] →
      filtered_df df spec = timeScheduleFilter df spec.timeMask spec.schedules) := by
  intro df spec
  refine ⟨filtered_df_eq_filter df spec, mem_filtered_df df spec, ?_,
    filtered_df_no_dest df spec⟩
  rw [filtered_df_eq_filter df spec]
  exact List.filter_sublist df

/-- Witness for C1: the empty-destination case at a concrete table. -/
theorem c1_filter_conjunction_witness :
    filtered_df [⟨[], "W1".data, "Controlled", 1, "u", some 1, 4, 3⟩]
        ⟨fun _ => true, [], ["Controlled"]⟩ =
      timeScheduleFilter [⟨[], "W1".data, "Controlled", 1, "u", some 1, 4, 3⟩]
        (fun _ => true) ["Controlled"] :=
  (c1_filter_conjunction [⟨[], "W1".data, "Controlled", 1, "u", some 1, 4, 3⟩]
    ⟨fun _ => true, [], ["Controlled"]⟩).2.2.2 rfl

/-- C2: the normalized drug schedule is always one of the three canonical
strings; a label in `_CD_MAP` maps to its canonical form, any other label
— absent or unmapped — maps to the literal string Unknown. -/
theorem c2_schedule_exhaustive : ∀ (raw : Option String),
    (mapSchedule raw = "Non-controlled" ∨ mapSchedule raw = "Controlled" ∨
      mapSchedule raw = "Unknown") ∧
    (∀ s c, raw = some s → CD_MAP.lookup s = some c → mapSchedule raw = c) ∧
    (∀ s, raw = some s → CD_MAP.lookup s = none → mapSchedule raw = "Unknown") ∧
    (raw = none → mapSchedule raw = "Unknown") := by
  intro raw
  refine ⟨?_, ?_, ?_, ?_⟩
  · cases raw with
    | none => exact Or.inr (Or.inr rfl)
    | some s =>
      cases h : CD_MAP.lookup s with
      | none =>
        refine Or.inr (Or.inr ?_)
        simp [mapSchedule, h]
      | some c =>
        have hm : mapSchedule (some s) = c := by simp [mapSchedule, h]
        rcases lookup_CD_MAP s c h with hc | hc
        · exact Or.inl (hm.trans hc)
        · exact Or.inr (Or.inl (hm.trans hc))
  · rintro s c rfl h
    simp [mapSchedule, h]
  · rintro s rfl h
    simp [mapSchedule, h]
  · rintro rfl
    rfl

/-- Witness for C2 at the three kinds of raw label. -/
theorem c2_schedule_exhaustive_witness :
    mapSchedule (some "Controlled drugs") = "Controlled" ∧
    mapSchedule (some "N/A") = "Unknown" ∧
    mapSchedule none = "Unknown" :=
  ⟨(c2_schedule_exhaustive (some "Controlled drugs")).2.1 "Controlled drugs"
      "Controlled" rfl rfl,
   (c2_schedule_exhaustive (some "N/A")).2.2.1 "N/A" rfl rfl,
   (c2_schedule_exhaustive none).2.2.2 rfl⟩

/-- C3: normalization keeps every row (same row count); a value that fails
numeric coercion becomes 0, a numerically valid value — negative included —
is kept unchanged. -/
theorem c3_value_coercion : ∀ (rows : List RawRecord),
    (load_data rows).length = rows.length ∧
    ∀ r ∈ rows,
      (r.value = none → (normalizeRow r).value = 0) ∧
      ∀ q : Int, r.value = some q → (normalizeRow r).value = q := by
  intro rows
  refine ⟨by simp [load_data], ?_⟩
  intro r _
  constructor
  · intro h
    show coerceValue r.value = 0
    rw [h]
    rfl
  · intro q h
    show coerceValue r.value = q
    rw [h]
    rfl

/-- Witness for C3: a two-row table with one unparseable and one negative
value. -/
theorem c3_value_coercion_witness :
    (load_data [⟨"Paracetamol", some "W1", none, 1, none, some 1, none, 0⟩,
      ⟨"Ibuprofen", some "W2", none, 2, none, some 1, some (-7), 0⟩]).length = 2 ∧
    (normalizeRow ⟨"Paracetamol", some "W1", none, 1, none, some 1, none, 0⟩).value = 0 ∧
    (normalizeRow ⟨"Ibuprofen", some "W2", none, 2, none, some 1, some (-7), 0⟩).value = -7 := by
  have h := c3_value_coercion
    [⟨"Paracetamol", some "W1", none, 1, none, some 1, none, 0⟩,
     ⟨"Ibuprofen", some "W2", none, 2, none, some 1, some (-7), 0⟩]
  exact ⟨h.1, (h.2 _ (List.mem_cons_self _ _)).1 rfl,
    (h.2 _ (List.mem_cons_of_mem _ (List.mem_cons_self _ _))).2 (-7) rfl⟩

/-! ## C4: the spec's paired-bracket variant of the suffix pattern

The specification says the closing bracket must MATCH the opening
bracket's type.  The following definitions follow the spec's words (for
comparison with `matchSuffix` / `stripSuffix`, which were translated from
the source pattern and accept any closing bracket). -/

/-- The spec's pairing requirement on the two brackets. -/
def bracketPaired (b c : Char) : Bool :=
  (b = '\x7b' && c = '\x7d') || (b = '(' && c = ')') || (b = '[' && c = ']')

/-- The suffix pattern as the spec words it: identical to `matchSuffix`
except that the closing bracket must pair with the opening one. -/
def specMatchSuffix (t : List Char) : Bool :=
  match t.dropWhile isWs with
  | [] => false
  | b :: rest =>
    isOpenBr b &&
    (let r1 := rest.dropWhile isWs
     let code := r1.takeWhile isCode
     decide (4 ≤ code.length) && decide (code.length ≤ 6) &&
     (match (r1.dropWhile isCode).dropWhile isWs with
      | [] => false
      | c :: r3 => bracketPaired b c && (r3.dropWhile isWs).isEmpty))

/-- Suffix removal as the spec words it. -/
def specStripSuffix (s : List Char) : List Char :=
  match (List.range (s.length + 1)).find? (fun i => specMatchSuffix (s.drop i)) with
  | some i => s.take i
  | none => s

/-- Item-name cleaning as the spec words it. -/
def specCleanItemName (s : List Char) : List Char :=
  collapseSpaces (pyStrip (specStripSuffix s))

/-- C4 counterexample: on an item name ending in an open-paren /
close-square-bracket code, the source's cleaning strips the suffix,
while the spec's matching-bracket rule would leave it in place. -/
theorem c4_counterexample :
    cleanItemName ("Paracetamol 500mg (ABC123]".data) = "Paracetamol 500mg".data ∧
    specCleanItemName ("Paracetamol 500mg (ABC123]".data)
      = "Paracetamol 500mg (ABC123]".data := by
  constructor <;> decide

/-- C4 (amended): cleaning removes a trailing suffix exactly when it is
optional whitespace, an opening bracket of type curly / round / square,
4-6 uppercase alphanumerics and ANY closing bracket of the three types
(pairing not required), with optional whitespace; at most one such
trailing suffix is removed per application, and the remainder is the
prefix before it. -/
theorem c4_suffix_stripping : ∀ s : List Char,
    (stripSuffix s = s ∧ ∀ p t : List Char, s = p ++ t → ¬ SuffixShape t) ∨
    (stripSuffix s ≠ s ∧ ∃ t, SuffixShape t ∧ s = stripSuffix s ++ t) :=
  stripSuffix_strips

/-- Witness for C4 at a concrete item name with a round-bracket code. -/
theorem c4_suffix_stripping_witness :
    stripSuffix ("A (BCDE)".data) ≠ "A (BCDE)".data ∧
    ∃ t, SuffixShape t ∧ "A (BCDE)".data = stripSuffix ("A (BCDE)".data) ++ t := by
  rcases c4_suffix_stripping ("A (BCDE)".data) with ⟨heq, _⟩ | h
  · exact absurd heq (by decide)
  · exact h

/-- C5 counterexample: cleaning is not idempotent — stripping one trailing
code can expose another, which a second application removes. -/
theorem c5_counterexample :
    cleanItemName (cleanItemName ("Ibuprofen (ABCD) (EFGH)".data)) ≠
      cleanItemName ("Ibuprofen (ABCD) (EFGH)".data) := by decide

/-- C5 (amended): cleaning is idempotent on every input whose once-cleaned
name does not itself end in a further bracketed catalogue code. -/
theorem c5_conditional_idempotence : ∀ s : List Char,
    stripSuffix (cleanItemName s) = cleanItemName s →
    cleanItemName (cleanItemName s) = cleanItemName s := by
  intro s h
  have hhead : ∀ c, (cleanItemName s).head? = some c → isWs c = false := by
    intro c hc
    unfold cleanItemName at hc
    cases hy : pyStrip (stripSuffix s) with
    | nil =>
      rw [hy] at hc
      exact Option.noConfusion hc
    | cons a t =>
      obtain ⟨t2, ht2⟩ := collapseSpaces_cons t a
      rw [hy, ht2, List.head?_cons] at hc
      obtain rfl := Option.some.inj hc
      exact pyStrip_head_not_ws (stripSuffix s) a (by rw [hy, List.head?_cons])
  have hlast : ∀ c, (cleanItemName s).getLast? = some c → isWs c = false := by
    intro c hc
    unfold cleanItemName at hc
    cases hy : pyStrip (stripSuffix s) with
    | nil =>
      rw [hy] at hc
      exact Option.noConfusion hc
    | cons a t =>
      rw [hy, collapseSpaces_getLast? t a] at hc
      exact pyStrip_getLast_not_ws (stripSuffix s) c (by rw [hy]; exact hc)
  have hstrip : pyStrip (cleanItemName s) = cleanItemName s :=
    pyStrip_eq_self _ hhead hlast
  have hcoll : collapseSpaces (cleanItemName s) = cleanItemName s := by
    unfold cleanItemName
    cases hy : pyStrip (stripSuffix s) with
    | nil => rfl
    | cons a t => exact collapseSpaces_of_noDouble _ (noDouble_collapseSpaces t a)
  calc cleanItemName (cleanItemName s)
      = collapseSpaces (pyStrip (stripSuffix (cleanItemName s))) := rfl
    _ = collapseSpaces (pyStrip (cleanItemName s)) := by rw [h]
    _ = collapseSpaces (cleanItemName s) := by rw [hstrip]
    _ = cleanItemName s := hcoll

/-- Witness for C5 at a concrete item name whose cleaned form has no
further trailing code. -/
theorem c5_conditional_idempotence_witness :
    cleanItemName (cleanItemName ("Aspirin 75mg (QWER)".data))
      = cleanItemName ("Aspirin 75mg (QWER)".data) :=
  c5_conditional_idempotence ("Aspirin 75mg (QWER)".data) (by decide)

/-- C6: the Daily Trend data is identical under any two ward/schedule
filter selections — it is computed from the full table only — while a
change of the underlying table can change it. -/
theorem c6_daily_trend_independence : ∀ (df : List Record) (spec1 spec2 : FilterSpec),
    dailyTrendView df spec1 = dailyTrendView df spec2 ∧
    ∃ df1 df2 : List Record, dailyTrendView df1 spec1 ≠ dailyTrendView df2 spec1 := by
  intro df spec1 spec2
  refine ⟨rfl, [], [⟨[], [], "Unknown", 1, "u", none, 0, 0⟩], ?_⟩
  show daily_trend [] ≠ daily_trend [⟨[], [], "Unknown", 1, "u", none, 0, 0⟩]
  decide

/-- C7 counterexample: with one row whose Quantity cell is missing, the
Line_Items metric — pandas count over the Quantity column — is 0, not the
user's row count 1, refuting the claim that it reports the count of rows. -/
theorem c7_counterexample :
    ¬ ∀ (df : List Record), ∀ e ∈ user_df df,
        e.lineItems = (rowsOfUser df e.user).length := by
  intro hall
  have h := hall [⟨[], [], "Unknown", 1, "alice", none, 5, 0⟩]
    ⟨"alice", 1, 0, 5⟩ (by decide)
  exact absurd h (by decide)

/-- C7 (amended): the Top Submitting Users query groups by submitting user
and reports, per user, the distinct-request count, the count of that
user's rows with a non-null quantity, and the value sum; one group per
distinct user; groups sorted descending by the distinct-request count. -/
theorem c7_user_query : ∀ (df : List Record),
    (∀ e ∈ user_df df,
       e.requests = nunique ((rowsOfUser df e.user).map (fun r => r.requestNumber)) ∧
       e.lineItems = ((rowsOfUser df e.user).filter (fun r => r.quantity.isSome)).length ∧
       e.totalValue = ((rowsOfUser df e.user).map (fun r => r.value)).sum) ∧
    List.Perm ((user_df df).map (fun e => e.user))
      ((df.map (fun r => r.submittingUser)).dedup) ∧
    (∀ u, u ∈ df.map (fun r => r.submittingUser) ↔ ∃ e ∈ user_df df, e.user = u) ∧
    List.Pairwise (fun a b => b.requests ≤ a.requests) (user_df df) := by
  intro df
  have hperm := user_df_perm_groups df
  refine ⟨?_, ?_, ?_, ?_⟩
  · intro e he
    exact (mem_userGroups df e (hperm.mem_iff.1 he)).2
  · have h1 : List.Perm ((user_df df).map (fun e => e.user))
        ((userGroups df).map (fun e => e.user)) := hperm.map _
    have h2 : (userGroups df).map (fun e => e.user)
        = (df.map (fun r => r.submittingUser)).dedup := by
      unfold userGroups
      rw [List.map_map]
      exact List.map_id' _
    rw [h2] at h1
    exact h1
  · intro u
    constructor
    · intro hu
      have hmem : u ∈ (df.map (fun r => r.submittingUser)).dedup := List.mem_dedup.2 hu
      exact ⟨_, hperm.mem_iff.2 (List.mem_map_of_mem _ hmem), rfl⟩
    · rintro ⟨e, he, rfl⟩
      exact List.mem_dedup.1 (mem_userGroups df e (hperm.mem_iff.1 he)).1
  · exact List.sorted_insertionSort userGe (userGroups df)

/-- Witness for C7 at a one-row table with a missing quantity. -/
theorem c7_user_query_witness :
    (⟨"alice", 1, 0, 5⟩ : UserRow).requests
      = nunique ((rowsOfUser [⟨[], [], "Unknown", 1, "alice", none, 5, 0⟩]
          "alice").map (fun r => r.requestNumber)) ∧
    (⟨"alice", 1, 0, 5⟩ : UserRow).lineItems
      = ((rowsOfUser [⟨[], [], "Unknown", 1, "alice", none, 5, 0⟩] "alice").filter
          (fun r => r.quantity.isSome)).length := by
  have h := (c7_user_query [⟨[], [], "Unknown", 1, "alice", none, 5, 0⟩]).1
    ⟨"alice", 1, 0, 5⟩ (by decide)
  exact ⟨h.1, h.2.1⟩

/-- C8: an empty filter result yields the distinct non-fatal noData
outcome — different from the two fatal load conditions — and the
aggregation queries run only on a non-empty filtered subset. -/
theorem c8_empty_result : ∀ (df : List Record) (spec : FilterSpec) (mode : TimeMode),
    (filtered_df df spec = [] → runDashboard (.ok df) spec mode = .noData) ∧
    Outcome.noData ≠ Outcome.sourceNotFound ∧
    Outcome.noData ≠ Outcome.malformedSource ∧
    (∀ aggs, runDashboard (.ok df) spec mode = .render aggs →
      filtered_df df spec ≠ [] ∧
      aggs = computeAggregates df (filtered_df df spec) mode) := by
  intro df spec mode
  refine ⟨?_, fun h => Outcome.noConfusion h, fun h => Outcome.noConfusion h, ?_⟩
  · intro h
    simp [runDashboard, h]
  · intro aggs h
    simp only [runDashboard] at h
    cases he : (filtered_df df spec).isEmpty with
    | true =>
      rw [if_pos he] at h
      exact Outcome.noConfusion h
    | false =>
      rw [if_neg (by simp [he])] at h
      refine ⟨?_, (Outcome.render.inj h).symm⟩
      intro hnil
      rw [hnil] at he
      exact Bool.noConfusion he

/-- Witness for C8: a table whose single row is rejected by the time mask. -/
theorem c8_empty_result_witness :
    runDashboard (.ok [⟨[], [], "Unknown", 1, "u", none, 0, 0⟩])
      ⟨fun _ => false, [], []⟩ TimeMode.daily = Outcome.noData :=
  (c8_empty_result [⟨[], [], "Unknown", 1, "u", none, 0, 0⟩]
    ⟨fun _ => false, [], []⟩ TimeMode.daily).1 rfl

/-- C9: the Daily Trend block is not produced in Monthly mode, and is
produced — from the full table — in Daily and Weekly modes. -/
theorem c9_monthly_no_trend : ∀ (df : List Record),
    renderDailyTrend TimeMode.monthly df = none ∧
    renderDailyTrend TimeMode.daily df = some (daily_trend df) ∧
    renderDailyTrend TimeMode.weekly df = some (daily_trend df) := by
  intro df
  exact ⟨rfl, rfl, rfl⟩

/-- C10: a missing destination cell normalizes to the literal three-char
string nan — not null, not empty, the row kept — and such a record is
filtered by ordinary set membership of that string like any other ward. -/
theorem c10_nan_destination : ∀ (raw : RawRecord) (spec : FilterSpec) (rec : Record),
    normDest none = "nan".data ∧
    ("nan".data).length = 3 ∧
    (raw.destination = none → (normalizeRow raw).destination = "nan".data) ∧
    (rec.destination = "nan".data →
      (rec ∈ filtered_df [rec] spec ↔
        spec.timeMask rec.date = true ∧
        (spec.destinations.isEmpty || spec.destinations.contains "nan".data) = true ∧
        (spec.schedules.isEmpty || spec.schedules.contains rec.drugSchedule) = true)) := by
  intro raw spec rec
  refine ⟨by decide, by decide, ?_, ?_⟩
  · intro h
    show normDest raw.destination = "nan".data
    rw [h]
    decide
  · intro h
    rw [mem_filtered_df]
    unfold passes
    rw [h]
    constructor
    · rintro ⟨_, hp⟩
      simp only [Bool.and_eq_true] at hp
      exact ⟨hp.1.1, hp.1.2, hp.2⟩
    · rintro ⟨htm, hd, hs⟩
      refine ⟨List.mem_cons_self rec [], ?_⟩
      simp only [Bool.and_eq_true]
      exact ⟨⟨htm, hd⟩, hs⟩

/-- Witness for C10: a raw row with a missing destination, and a record
with destination nan passing a filter that selects the nan ward. -/
theorem c10_nan_destination_witness :
    (normalizeRow ⟨"X", none, none, 1, none, none, none, 0⟩).destination = "nan".data ∧
    (⟨[], "nan".data, "Unknown", 1, "u", none, 0, 0⟩ : Record) ∈
      filtered_df [⟨[], "nan".data, "Unknown", 1, "u", none, 0, 0⟩]
        ⟨fun _ => true, ["nan".data], []⟩ := by
  have h := c10_nan_destination ⟨"X", none, none, 1, none, none, none, 0⟩
    ⟨fun _ => true, ["nan".data], []⟩ ⟨[], "nan".data, "Unknown", 1, "u", none, 0, 0⟩
  exact ⟨h.2.2.1 rfl, (h.2.2.2 rfl).2 ⟨rfl, by decide, by decide⟩⟩
